import Mathlib

/-!
# Verification of the custom-label subsystem of `sf-ext-plus`

Shallow embedding of the label-index subsystem of the `sf-ext-plus`
editor extension: the label store (a JavaScript object used as a map
from `fullName` to a label record), the workspace reload
(`loadLabelsInWorkspace` / `parseLabelFile` in
`src/commands/labels/load.ts`), the label-creation workflow and the
quick-fix code-action provider (`activateLabelCreateOnPalette` /
`getLabelCreateOnCodeActionProvider`), the completion and hover
providers, and the `copyVersion` routine of
`src/commands/appversion/copiers.ts`.

Conventions of the embedding:

* A JavaScript object used as a map is an insertion-ordered association
  list `List (String × α)`; property assignment is `objSet` (replace in
  place when the key exists, append otherwise) and property read is
  `jsLookup` (first match).
* Label records are duck-typed in the source: records coming from the
  `xml2js` parser carry each child element's text wrapped in an array,
  while records built by the creation workflow carry plain strings and
  a boolean `protected` flag.  `JsField` covers both shapes, with JS
  truthiness (`jsTruthy`) and JS index-0 access (`jsIdx0`).
* `String.replace` with a non-global regexp whose pattern is a literal
  (as in the write path) is `replaceFirst`: replace the leftmost
  occurrence only.
* `split(',')` / `split('.')` with a one-character separator is
  `jsSplitOn`, and `String.prototype.trim` is `jsTrim` (restricted to
  the common ASCII whitespace characters).
* Exceptions are `Except`; a function that can throw returns `.error`.
-/

set_option autoImplicit false

namespace SfExtPlus

/-- A duck-typed JavaScript field value as it occurs in label records:
absent (`undefined`), a plain string, an array of strings (the shape
`xml2js` produces for repeated/child elements), or a boolean. -/
inductive JsField where
  | undefined
  | str (s : String)
  | arr (l : List String)
  | bool (b : Bool)
  deriving DecidableEq, Repr

/-- JavaScript truthiness of a `JsField`: `undefined` and `""` and
`false` are falsy; any array (even empty) is truthy. -/
def jsTruthy : JsField → Bool
  | .undefined => false
  | .str s => !(s = "")
  | .arr _ => true
  | .bool b => b

/-- JavaScript `x[0]` on a field, as used by the providers
(`label.value[0]`, `label.shortDescription[0]`): on an array it is the
first element, on a string the first character (as a one-character
string), `undefined` otherwise.  Reading `[0]` on `undefined` throws in
JS; callers in this file that may hit that case model the throw
explicitly and only use `jsIdx0` where the receiver is defined. -/
def jsIdx0 : JsField → Option String
  | .undefined => none
  | .str s => match s.data with
    | [] => none
    | c :: _ => some (String.singleton c)
  | .arr l => l.head?
  | .bool _ => none

/-- JavaScript string interpolation of a field
(template-literal coercion): arrays join with commas, booleans print
`true`/`false`, `undefined` prints as the text `undefined`. -/
def jsDisplay : JsField → String
  | .undefined => "undefined"
  | .str s => s
  | .arr l => String.intercalate "," l
  | .bool b => cond b "true" "false"

/-- One record of the label store.  Field names follow the
`CustomLabel` interface of the source; `protected` is a reserved word
in Lean, hence the guillemets. -/
structure StoreLabel where
  fullName : JsField := .undefined
  value : JsField := .undefined
  categories : JsField := .undefined
  language : JsField := .undefined
  «protected» : JsField := .undefined
  shortDescription : JsField := .undefined
  deriving DecidableEq, Repr

/-- The label store: the JS object `salesforceLabels`, i.e. an
insertion-ordered association list keyed by `fullName`. -/
abbrev LabelMap := List (String × StoreLabel)

/-- JS property read `obj[k]`: the value at the first (and, for stores
built by this code, only) entry with key `k`. -/
def jsLookup (k : String) : LabelMap → Option StoreLabel
  | [] => none
  | (k', v) :: rest => if k' = k then some v else jsLookup k rest

/-- JS property assignment `obj[k] = v` on an insertion-ordered object:
if the key is present the entry is updated in place (keeping its
position), otherwise a new entry is appended. -/
def objSet (m : LabelMap) (k : String) (v : StoreLabel) : LabelMap :=
  if m.any (fun p => p.1 = k) then
    m.map (fun p => if p.1 = k then (k, v) else p)
  else
    m ++ [(k, v)]

/-- One label as decoded by `xml2js` from a well-formed label file:
every child element's text (each wrapped by `xml2js` in a one-element
array, whose `[0]` is the string held here), `none` when the element is
absent from the entry. -/
structure ParsedLabel where
  fullName : String
  value : String
  categories : Option String := none
  language : Option String := none
  «protected» : Option String := none
  shortDescription : Option String := none
  deriving DecidableEq, Repr

/-- The store record held for a parsed label: the raw `xml2js` object,
whose present fields are one-element arrays. -/
def ParsedLabel.toStore (p : ParsedLabel) : StoreLabel where
  fullName := .arr [p.fullName]
  value := .arr [p.value]
  categories := match p.categories with
    | some s => .arr [s]
    | none => .undefined
  language := match p.language with
    | some s => .arr [s]
    | none => .undefined
  «protected» := match p.«protected» with
    | some s => .arr [s]
    | none => .undefined
  shortDescription := match p.shortDescription with
    | some s => .arr [s]
    | none => .undefined

/-- JS `String.prototype.split` with a one-character separator, on the
character list of the string. -/
def splitOnChar (sep : Char) : List Char → List (List Char)
  | [] => [[]]
  | a :: rest =>
    match splitOnChar sep rest with
    | [] => [[a]]
    | h :: t => if a = sep then [] :: h :: t else (a :: h) :: t

/-- JS `s.split(sep)` for a one-character separator `sep`. -/
def jsSplitOn (s : String) (sep : Char) : List String :=
  (splitOnChar sep s.data).map (fun l => ⟨l⟩)

/-- An ASCII whitespace character, for the model of `trim`. -/
def isSpaceChar (c : Char) : Bool :=
  c = ' ' || c = '\t' || c = '\n' || c = '\r'

/-- JS `s.trim()` (restricted to common whitespace): drop whitespace
from both ends. -/
def jsTrim (s : String) : String :=
  ⟨((s.data.dropWhile isSpaceChar).reverse.dropWhile isSpaceChar).reverse⟩

/-- Worker for `jsSetDedup`: keep elements not yet seen, in order. -/
def jsSetDedupAux (seen : List String) : List String → List String
  | [] => []
  | x :: xs =>
    if x ∈ seen then jsSetDedupAux seen xs
    else x :: jsSetDedupAux (x :: seen) xs

/-- JS `Array.from(new Set(l))`: de-duplicate keeping the first
occurrence of each element, in order. -/
def jsSetDedup (l : List String) : List String :=
  jsSetDedupAux [] l

/-- The category segments one parsed label contributes in
`parseLabelFile`: when `<categories>` is present, its text split on
commas with every segment trimmed (`label.categories[0].split(',')
.map(c => c.trim())`), nothing otherwise. -/
def labelCategorySegments (p : ParsedLabel) : List String :=
  match p.categories with
  | some s => (jsSplitOn s ',').map jsTrim
  | none => []

/-- The per-file category list `categories` accumulated by the loop in
`parseLabelFile` over one file's labels. -/
def fileCategories (f : List ParsedLabel) : List String :=
  f.flatMap labelCategorySegments

/-- The module-level mutable state of `load.ts` touched by a reload:
the store object `salesforceLabels` and the derived category list
`activeLabelCategories`. -/
structure LoadState where
  salesforceLabels : LabelMap
  activeLabelCategories : List String
  deriving DecidableEq, Repr

/-- `parseLabelFile` on one successfully decoded file: every label of
the file is assigned into `salesforceLabels` in source order (the
progress notification and its cosmetic delays do not affect the final
state and are elided), and `activeLabelCategories` is then overwritten
with the de-duplicated category list of this file alone (the
`categories` accumulator is local to the file's parse). -/
def parseLabelFile (st : LoadState) (f : List ParsedLabel) : LoadState where
  salesforceLabels :=
    f.foldl (fun m p => objSet m p.fullName p.toStore) st.salesforceLabels
  activeLabelCategories := jsSetDedup (fileCategories f)

/-- `loadLabelsInWorkspace` after the locator has found `files` (given
already decoded and parsed; a file whose read or parse fails is simply
skipped, so a reload in which every file parses is the fold below):
each file is handed to `parseLabelFile` in locator order.  The store is
NOT cleared first. -/
def loadLabelsInWorkspace (st : LoadState) (files : List (List ParsedLabel)) :
    LoadState :=
  files.foldl parseLabelFile st

/-- Modelled from the spec: the Label Store method `updateLabel`
(upsert) of the store class in the newest revision of `load.ts`, which
is not in the source tree (only its callers in the creation workflow
and the hover provider are).  Per the spec, `upsert(fullName, record)`
"inserts or replaces one entry without touching the rest of the
store"; on a JS object keyed by `fullName` that is exactly property
assignment. -/
def updateLabel (m : LabelMap) (k : String) (r : StoreLabel) : LabelMap :=
  objSet m k r

/-- Modelled from the spec: the Label Store method `getAllLabels` of
the store class missing from the source tree.  Per the spec, `getAll()`
"returns the current records as a read-only ordered-by-insertion
view". -/
def getAllLabels (m : LabelMap) : List StoreLabel :=
  m.map Prod.snd

/-! ## The textual write path of the creation workflow -/

/-- Replace the leftmost occurrence of the pattern `pat` in a character
list by `rep`, leaving the list unchanged when `pat` does not occur:
the behaviour of JS `String.prototype.replace` with a non-global
regexp whose pattern is a literal. -/
def listReplaceFirst (pat rep : List Char) : List Char → List Char
  | [] => []
  | c :: rest =>
    if pat.isPrefixOf (c :: rest) then
      rep ++ (c :: rest).drop pat.length
    else
      c :: listReplaceFirst pat rep rest

/-- String-level wrapper for `listReplaceFirst`. -/
def replaceFirst (s pat rep : String) : String :=
  ⟨listReplaceFirst pat.data rep.data s.data⟩

/-- The closing tag of one label entry, `</labels>`: the pattern of the
regexp used by the write path. -/
def closeLabelsTag : String := "</labels>"

/-- The label record assembled by the creation workflow before it is
written to disk and upserted. -/
structure CreatedLabel where
  fullName : String
  value : String
  categories : String
  language : String
  protFlag : Bool
  shortDescription : String
  deriving DecidableEq, Repr

/-- The markup of the new entry appended by the creation workflow: the
replacement string of `activateLabelCreateOnPalette` minus its leading
`</labels>` (which re-emits the matched closing tag), so that the
replacement is `closeLabelsTag ++ renderNewLabelEntry l`. -/
def renderNewLabelEntry (l : CreatedLabel) : String :=
  "\n    <labels>\n        <fullName>" ++ l.fullName ++
  "</fullName>\n        <categories>" ++ l.categories ++
  "</categories>\n        <language>" ++ l.language ++
  "</language>\n        <protected>" ++ (cond l.protFlag "true" "false") ++
  "</protected>\n        <shortDescription>" ++ l.shortDescription ++
  "</shortDescription>\n        <value>" ++ l.value ++
  "</value>\n    </labels>"

/-- The file content produced by the creation workflow's write path:
the source calls `labelFileString.replace(pattern, replacement)` with a
non-global regexp whose pattern is the literal `</labels>` and a
replacement that starts by re-emitting `</labels>` followed by the new
entry — i.e. insertion of the rendered entry immediately after the
first closing `</labels>` tag. -/
def appendNewLabelMarkup (content : String) (l : CreatedLabel) : String :=
  replaceFirst content closeLabelsTag (closeLabelsTag ++ renderNewLabelEntry l)

/-- The record the workflow upserts into the store for the created
label: the `newLabel` object literal, with plain-string fields and a
boolean `protected`. -/
def CreatedLabel.toStore (l : CreatedLabel) : StoreLabel where
  fullName := .str l.fullName
  value := .str l.value
  categories := .str l.categories
  language := .str l.language
  «protected» := .bool l.protFlag
  shortDescription := .str l.shortDescription

/-! ## The creation workflow (`activateLabelCreateOnPalette`) -/

/-- JS `a || b` for an optional string `a` (an input-box result):
`undefined` and the empty string fall through to `b`. -/
def jsOrDefault (o : Option String) (d : String) : String :=
  match o with
  | some s => if s = "" then d else s
  | none => d

/-- The environment the creation command reads: the workspace
`package.json` settings, the located label files (their current
contents, in locator order), the label store, and an optional
pre-selected value handed over by the quick-fix. -/
structure CreateEnv where
  namespaceSetting : Option String
  defaultLanguageSetting : Option String
  labelFileContents : List String
  store : LabelMap
  providedLabelValue : Option String

/-- What the user answers at each interactive prompt of the creation
command, in the order the prompts are shown; `none` is a dismissed
prompt (the suspension resolves to `undefined`). -/
structure PromptResponses where
  nameInput : Option String
  useNamespacePick : Option String
  valueInput : Option String
  categoriesPick : Option (List String)
  categoryInput : Option String
  protectedPick : Option String
  languageInput : Option String
  shortDescriptionInput : Option String
  filePick : Option Nat

/-- The observable effects of one run of the creation command: the file
write, if one happened (index of the chosen file and the full new
content), and the label store after the run. -/
structure CreateResult where
  wroteFile : Option (Nat × String)
  store : LabelMap
  deriving DecidableEq, Repr

/-- The category suggestions offered by the multi-select: computed live
from `getAllLabels` — for each record whose `categories` field is
truthy, non-empty (JS `.length > 0`), with a truthy first element that
is itself non-empty, that first element split on commas and trimmed;
flattened and de-duplicated. -/
def activeCategorySuggestions (m : LabelMap) : List String :=
  jsSetDedup ((getAllLabels m).flatMap (fun l =>
    match jsIdx0 l.categories with
    | some c0 =>
      if jsTruthy l.categories && !(c0 = "") then
        (jsSplitOn c0 ',').map jsTrim
      else []
    | none => []))

/-- One run of the `createNewLabel` command
(`activateLabelCreateOnPalette` in the newest revision), as a function
of the environment and of the user's prompt responses.  Each `match`
on a response mirrors the corresponding `await vscode.window.show...`
plus the guard that follows it in the source; an early `return` is a
`CreateResult` with no write and the store unchanged. -/
def createNewLabel (env : CreateEnv) (r : PromptResponses) : CreateResult :=
  let noEffect : CreateResult := { wroteFile := none, store := env.store }
  -- let labelName = await showInputBox(...); if (!labelName) return;
  match r.nameInput with
  | none => noEffect
  | some name0 =>
  if name0 = "" then noEffect else
  -- const namespace = packageJson.salesforce?.namespace || '';
  let ns := jsOrDefault env.namespaceSetting ""
  -- if (namespace) { useNamespace = await showQuickPick([...]); if Yes prepend }
  let labelName :=
    if !(ns = "") && r.useNamespacePick == some "Yes" then
      ns ++ "_" ++ name0
    else name0
  -- const inputLabelValue = await showInputBox(...); if (!inputLabelValue) return;
  match r.valueInput with
  | none => noEffect
  | some value0 =>
  if value0 = "" then noEffect else
  -- activeLabelCategories derived from the store (suggestions only);
  -- selectedCategories = await showQuickPick(..., canPickMany); no guard
  let categories0 :=
    match r.categoriesPick with
    | some picks => if picks.length > 0 then String.intercalate "," picks else ""
    | none => ""
  -- const categoryInput = await showInputBox(...); if (categoryInput) append
  let categories :=
    match r.categoryInput with
    | some c => if c = "" then categories0 else categories0 ++ "," ++ c
    | none => categories0
  -- const isProtected = await showQuickPick(['Yes','No'], ...); if (!isProtected) return;
  match r.protectedPick with
  | none => noEffect
  | some protPick =>
  if protPick = "" then noEffect else
  -- const defaultLanguage = packageJson.salesforce?.labels?.defaultLanguage || 'en_US';
  let defaultLanguage := jsOrDefault env.defaultLanguageSetting "en_US"
  -- let chosenLanguage = await showInputBox(...); if (!chosenLanguage) default
  let chosenLanguage := jsOrDefault r.languageInput defaultLanguage
  -- const shortDescription = await showInputBox(...); no guard
  -- newLabel = { ..., shortDescription: shortDescription || labelName }
  let newLabel : CreatedLabel :=
    { fullName := labelName
      value := value0
      categories := categories
      language := chosenLanguage
      protFlag := protPick == "Yes"
      shortDescription := jsOrDefault r.shortDescriptionInput labelName }
  -- if (labelFiles.length === 0) { showErrorMessage(...); return; }
  if env.labelFileContents.length = 0 then noEffect else
  -- file choice: quick pick when more than one file, silent otherwise
  let labelFileIdx : Option Nat :=
    if env.labelFileContents.length > 1 then
      match r.filePick with
      | some i => if i < env.labelFileContents.length then some i else none
      | none => none
    else some 0
  -- if (!labelFileUri) { showInformationMessage(...); return; }
  match labelFileIdx with
  | none => noEffect
  | some i =>
    let content := env.labelFileContents.getD i ""
    { wroteFile := some (i, appendNewLabelMarkup content newLabel)
      store := updateLabel env.store newLabel.fullName newLabel.toStore }

/-! ## Completion provider -/

/-- One completion suggestion: the label's `fullName` as the insertable
token, the label's value as the `detail` string, and the optional
rich-text `documentation`. -/
structure CompletionItem where
  labelName : String
  detail : Option String
  documentation : Option String
  deriving DecidableEq, Repr

deriving instance DecidableEq for Except

/-- The body of the `try` block formatting one record into a
completion item.  Reading `label.value[0]` on an `undefined` value
throws (`.error`); the `shortDescription` access is guarded by its own
truthiness, so it never throws. -/
def formatCompletionItem (labelName : String) (l : StoreLabel) :
    Except Unit CompletionItem :=
  match l.value with
  | .undefined => .error ()
  | v =>
    .ok { labelName := labelName
          detail := jsIdx0 v
          documentation :=
            match jsIdx0 l.shortDescription with
            | some d0 =>
              if jsTruthy l.shortDescription && !(d0 = "") then some d0 else none
            | none => none }

/-- The record loop of `provideCompletionItems` (after the
`linePrefix` trigger check has passed): iterate the store in insertion
order, push each formatted item, and — as the source's `catch` block
does — `break` out of the whole loop on the first record whose
formatting throws, returning only the items accumulated so far. -/
def completionItemsLoop : LabelMap → List CompletionItem
  | [] => []
  | (name, l) :: rest =>
    match formatCompletionItem name l with
    | .ok item => item :: completionItemsLoop rest
    | .error _ => []

/-- Skip-and-continue variant of the record loop: what the loop
computes when the `catch` block `continue`s instead of `break`ing.
Used to state what the claim expects of the provider. -/
def completionItemsSkipping : LabelMap → List CompletionItem
  | [] => []
  | (name, l) :: rest =>
    match formatCompletionItem name l with
    | .ok item => item :: completionItemsSkipping rest
    | .error _ => completionItemsSkipping rest

/-! ## Hover provider -/

/-- The markdown fragments appended by `provideHover` once the token
under the cursor resolved to the store record `l` with name
`labelName`, in source order: name and value always; category, short
description, protected and language lines each guarded by the JS
truthiness of the corresponding field, the protected line rendering
the ternary `label.protected ? 'Yes' : 'No'` under its own guard. -/
def hoverMarkdownParts (labelName : String) (l : StoreLabel) : List String :=
  ["**Label Name:** " ++ labelName ++ "\n\n",
   "**Value:** " ++ jsDisplay l.value ++ "\n\n"] ++
  (if jsTruthy l.categories then
    ["**Category:** " ++ jsDisplay l.categories ++ "\n\n"] else []) ++
  (if jsTruthy l.shortDescription then
    ["**Short Description:** " ++ jsDisplay l.shortDescription ++ "\n\n"] else []) ++
  (if jsTruthy l.«protected» then
    ["**Protected:** " ++ (if jsTruthy l.«protected» then "Yes" else "No") ++ "\n\n"]
   else []) ++
  (if jsTruthy l.language then
    ["**Language:** " ++ jsDisplay l.language ++ "\n\n"] else [])

/-! ## Quick-fix code-action provider -/

/-- One code action offered by `provideCodeActions`, reduced to what
identifies it: which label it substitutes, or the create-new action
with its command argument (the value pre-populating the creation
workflow). -/
inductive CodeActionModel where
  | useExisting (fullName : String)
  | useSimilar (fullName : String)
  | createNew (arg : String)
  deriving DecidableEq, Repr

/-- The single-quote character, written by code point to keep the
source free of quote literals. -/
def singleQuote : Char := Char.ofNat 39

/-- The quote-stripping step of `provideCodeActions`: if the selection
starts and ends with a single quote, `slice(1, -1)`. -/
def stripQuotes (s : String) : String :=
  let startsQ := match s.data with
    | c :: _ => c = singleQuote
    | [] => false
  let endsQ := match s.data.getLast? with
    | some c => c = singleQuote
    | none => false
  if startsQ && endsQ then ⟨(s.data.drop 1).dropLast⟩ else s

/-- JS `haystack.includes(needle)`: substring containment. -/
def jsIncludes (haystack needle : String) : Bool :=
  go haystack.data
where
  go : List Char → Bool
    | [] => needle.data.isPrefixOf []
    | c :: rest => needle.data.isPrefixOf (c :: rest) || go rest

/-- Whether a field is the JS value `undefined` — the only receiver on
which an index access like `value[0]` itself throws. -/
def isUndefinedField : JsField → Bool
  | .undefined => true
  | _ => false

/-- The `find` pass of the code-action provider:
`Object.values(...).find(label => label.value[0] === proposed)`,
scanning the records in insertion order and stopping at the first
match.  Reading `label.value[0]` throws a TypeError when `value` is
`undefined` (`.error`, aborting the whole provider); on any other
shape the indexing yields a possibly-`undefined` string and the strict
comparison with the string `proposed` is false for `undefined`. -/
def findExistingLabel (proposed : String) :
    List StoreLabel → Except Unit (Option StoreLabel)
  | [] => .ok none
  | l :: rest =>
    if isUndefinedField l.value then .error ()
    else if jsIdx0 l.value == some proposed then .ok (some l)
    else findExistingLabel proposed rest

/-- The `filter` pass of the code-action provider:
`Object.values(...).filter(label => label.value[0].includes(proposed)
&& (existing ? label.value[0] !== existing.value[0] : true))`.  The
filter visits every record: the callback throws when `label.value` is
`undefined` (the `[0]` access) and also when `label.value[0]` is
`undefined` (calling `.includes` on it) — i.e. exactly when
`jsIdx0 l.value` is `none`; a throw aborts the whole provider.  When
`existing` was found, its `value[0]` is the matched string, so the
second conjunct never throws. -/
def filterSimilarLabels (proposed : String) (existing : Option StoreLabel) :
    List StoreLabel → Except Unit (List StoreLabel)
  | [] => .ok []
  | l :: rest =>
    match jsIdx0 l.value with
    | none => .error ()
    | some v0 =>
      match filterSimilarLabels proposed existing rest with
      | .error e => .error e
      | .ok tail =>
        if jsIncludes v0 proposed &&
            (match existing with
             | some ex => !(some v0 == jsIdx0 ex.value)
             | none => true) then
          .ok (l :: tail)
        else .ok tail

/-- `provideCodeActions` of `getLabelCreateOnCodeActionProvider`, as a
function of the store and of the selected text.  `.ok none` models the
provider's bare `return` (no actions at all), `.ok (some actions)` the
returned list, and `.error ()` a TypeError thrown out of the find or
filter callback (on a record whose `value[0]` is not a string), which
propagates out of the provider so that no actions are produced. -/
def provideCodeActions (store : LabelMap) (selectedText : String) :
    Except Unit (Option (List CodeActionModel)) :=
  -- if (!proposedLabelValue) return;
  if selectedText = "" then .ok none else
  let proposed := stripQuotes selectedText
  -- if (salesforceLabels[proposedLabelValue]) return;
  if (jsLookup proposed store).isSome then .ok none else
  -- const existingLabel = Object.values(...).find(l => l.value[0] === proposed);
  match findExistingLabel proposed (getAllLabels store) with
  | .error e => .error e
  | .ok existing =>
    -- const similarLabels = Object.values(...).filter(l =>
    --   l.value[0].includes(proposed) && (existing ? l.value[0] !== existing.value[0] : true));
    match filterSimilarLabels proposed existing (getAllLabels store) with
    | .error e => .error e
    | .ok similars =>
      let existingActions :=
        match existing with
        | some ex =>
          [CodeActionModel.useExisting (jsDisplay ex.fullName)]
        | none => []
      let similarActions := similars.map (fun l =>
        CodeActionModel.useSimilar (jsDisplay l.fullName))
      .ok (some (existingActions ++ similarActions ++
        [CodeActionModel.createNew proposed]))

/-! ## `copyVersion` (`src/commands/appversion/copiers.ts`) -/

/-- The `salesforce` settings block read by the copiers, reduced to the
flag `copyVersion` consults. -/
structure CopierSettings where
  copyVersionToPackageJson : Bool
  deriving DecidableEq, Repr

/-- The slice of `package.json` that `copyVersion` may mutate. -/
structure PackageJsonVersion where
  version : String
  deriving DecidableEq, Repr

/-- The slice of the default package directory of `sfdx-project.json`
that `copyVersion` reads. -/
structure DefaultPackageDirectory where
  versionNumber : String
  deriving DecidableEq, Repr

/-- `copyVersion`: when the setting is off (or the settings object is
missing) or the versions already agree, the `package.json` object is
left as is; otherwise the `sfdx` version number is split on dots and,
with at least three parts, the first three joined by dots become the
new version — with fewer, the function throws before any mutation. -/
def copyVersion (settings : Option CopierSettings)
    (packageJsonObj : PackageJsonVersion)
    (defaultPackageDirectory : DefaultPackageDirectory) :
    Except String PackageJsonVersion :=
  match settings with
  | none => .ok packageJsonObj
  | some st =>
    if !st.copyVersionToPackageJson then .ok packageJsonObj
    else if packageJsonObj.version = defaultPackageDirectory.versionNumber then
      .ok packageJsonObj
    else
      let versionParts := jsSplitOn defaultPackageDirectory.versionNumber '.'
      if versionParts.length ≥ 3 then
        .ok { version := String.intercalate "." (versionParts.take 3) }
      else
        .error ("Invalid version number format in sfdx-project.json: " ++
          defaultPackageDirectory.versionNumber)

/-! ## Store lemmas -/

/-- Keys of the store object, in insertion order. -/
def storeKeys (m : LabelMap) : List String :=
  m.map Prod.fst

theorem jsLookup_append (k : String) (m₁ m₂ : LabelMap) :
    jsLookup k (m₁ ++ m₂) =
      match jsLookup k m₁ with
      | some v => some v
      | none => jsLookup k m₂ := by
  induction m₁ with
  | nil => simp [jsLookup]
  | cons p rest ih =>
    obtain ⟨k', v⟩ := p
    by_cases h : k' = k <;> simp [jsLookup, h, ih]

theorem jsLookup_eq_none_of_not_mem (k : String) (m : LabelMap)
    (h : k ∉ storeKeys m) : jsLookup k m = none := by
  induction m with
  | nil => rfl
  | cons p rest ih =>
    simp only [storeKeys, List.map_cons, List.mem_cons] at h
    push_neg at h
    have h1 : ¬ p.1 = k := fun hh => h.1 hh.symm
    simp [jsLookup, h1, ih (by simpa [storeKeys] using h.2)]

theorem mem_storeKeys_of_jsLookup (k : String) (m : LabelMap)
    (h : (jsLookup k m).isSome) : k ∈ storeKeys m := by
  induction m with
  | nil => simp [jsLookup] at h
  | cons p rest ih =>
    by_cases hk : p.1 = k
    · simp [storeKeys, ← hk]
    · simp only [jsLookup, if_neg hk] at h
      exact List.mem_cons.mpr (Or.inr (by simpa [storeKeys] using ih h))

theorem any_keys_iff (m : LabelMap) (k : String) :
    (m.any (fun p => p.1 = k)) = true ↔ k ∈ storeKeys m := by
  rw [List.any_eq_true]
  constructor
  · rintro ⟨p, hp, hpk⟩
    exact List.mem_map.mpr ⟨p, hp, by simpa using hpk⟩
  · intro h
    obtain ⟨p, hp, hp1⟩ := List.mem_map.mp h
    exact ⟨p, hp, by simp [hp1]⟩

theorem jsLookup_mapReplace (m : LabelMap) (k k' : String) (v : StoreLabel) :
    jsLookup k' (m.map (fun p => if p.1 = k then (k, v) else p)) =
      if k = k' then (if k ∈ storeKeys m then some v else none)
      else jsLookup k' m := by
  induction m with
  | nil =>
    simp only [List.map_nil]
    split <;> simp [jsLookup, storeKeys]
  | cons p rest ih =>
    obtain ⟨k₀, v₀⟩ := p
    by_cases h₀ : k₀ = k
    · subst h₀
      simp only [List.map_cons, if_pos rfl]
      by_cases hkk : k₀ = k'
      · subst hkk
        simp [jsLookup, storeKeys]
      · simp only [jsLookup, if_neg hkk, ih, if_neg hkk, storeKeys,
          List.map_cons, List.mem_cons, true_or, if_pos]
    · simp only [List.map_cons, if_neg h₀]
      by_cases hkk : k₀ = k'
      · subst hkk
        have hne : ¬ k = k₀ := fun hh => h₀ hh.symm
        simp [jsLookup, hne]
      · have hmem : (k ∈ storeKeys ((k₀, v₀) :: rest)) ↔ k ∈ storeKeys rest := by
          constructor
          · intro h
            rcases List.mem_cons.mp h with h | h
            · exact absurd h.symm h₀
            · exact h
          · intro h
            exact List.mem_cons.mpr (Or.inr h)
        simp only [jsLookup, if_neg hkk, ih]
        by_cases hm : k ∈ storeKeys rest
        · simp [hm, hmem.mpr hm]
        · have hm' : k ∉ storeKeys ((k₀, v₀) :: rest) := fun hh => hm (hmem.mp hh)
          simp [hm, hm']

theorem jsLookup_objSet (m : LabelMap) (k k' : String) (v : StoreLabel) :
    jsLookup k' (objSet m k v) =
      if k = k' then some v else jsLookup k' m := by
  unfold objSet
  by_cases hc : m.any (fun p => p.1 = k)
  · have hmem : k ∈ storeKeys m := (any_keys_iff m k).mp hc
    simp [hc, jsLookup_mapReplace, hmem]
  · have hnm : k ∉ storeKeys m := fun hmem => hc ((any_keys_iff m k).mpr hmem)
    simp only [hc, Bool.false_eq_true, if_false]
    rw [jsLookup_append]
    by_cases hkk : k = k'
    · subst hkk
      simp [jsLookup_eq_none_of_not_mem k m hnm, jsLookup]
    · cases hl : jsLookup k' m <;> simp [jsLookup, hkk, hl]

/-! ## Reload characterization -/

/-- The sequence of assignments a reload performs: every parsed label
of every file, in locator order then source order, as
`(fullName, record)` pairs. -/
def reloadAssignments (files : List (List ParsedLabel)) : LabelMap :=
  files.flatten.map (fun p => (p.fullName, p.toStore))

/-- Fold a sequence of object assignments over a store. -/
def assignAll (m : LabelMap) (L : LabelMap) : LabelMap :=
  L.foldl (fun m p => objSet m p.1 p.2) m

/-- The value the last assignment under key `k` in `L` would leave,
starting from `i` when `L` never assigns `k`. -/
def lastValAux (k : String) (L : LabelMap) (i : Option StoreLabel) :
    Option StoreLabel :=
  L.foldl (fun acc p => if p.1 = k then some p.2 else acc) i

theorem lastValAux_cons (k : String) (p : String × StoreLabel) (L : LabelMap)
    (i : Option StoreLabel) :
    lastValAux k (p :: L) i =
      lastValAux k L (if p.1 = k then some p.2 else i) := rfl

theorem jsLookup_assignAll (k : String) (L : LabelMap) :
    ∀ m : LabelMap,
      jsLookup k (assignAll m L) = lastValAux k L (jsLookup k m) := by
  induction L with
  | nil => intro m; rfl
  | cons p rest ih =>
    intro m
    rw [show assignAll m (p :: rest) = assignAll (objSet m p.1 p.2) rest from rfl,
      ih, lastValAux_cons, jsLookup_objSet]

theorem assignAll_append (m : LabelMap) (L₁ L₂ : LabelMap) :
    assignAll m (L₁ ++ L₂) = assignAll (assignAll m L₁) L₂ :=
  List.foldl_append ..

theorem parseLabelFile_salesforceLabels (st : LoadState) (f : List ParsedLabel) :
    (parseLabelFile st f).salesforceLabels =
      assignAll st.salesforceLabels (f.map (fun p => (p.fullName, p.toStore))) := by
  unfold parseLabelFile assignAll
  rw [List.foldl_map]

theorem loadLabelsInWorkspace_salesforceLabels (files : List (List ParsedLabel)) :
    ∀ st : LoadState,
      (loadLabelsInWorkspace st files).salesforceLabels =
        assignAll st.salesforceLabels (reloadAssignments files) := by
  induction files with
  | nil => intro st; rfl
  | cons f fs ih =>
    intro st
    rw [show loadLabelsInWorkspace st (f :: fs) =
        loadLabelsInWorkspace (parseLabelFile st f) fs from rfl,
      ih, parseLabelFile_salesforceLabels]
    unfold reloadAssignments
    rw [List.flatten_cons, List.map_append, assignAll_append]

/-- When `L` assigns `k` somewhere, the start value is irrelevant. -/
theorem lastValAux_of_assigned (k : String) (L : LabelMap)
    (h : ∃ p ∈ L, p.1 = k) :
    ∀ i j, lastValAux k L i = lastValAux k L j := by
  induction L with
  | nil => simp at h
  | cons p rest ih =>
    intro i j
    rw [lastValAux_cons, lastValAux_cons]
    by_cases hp : p.1 = k
    · simp [hp]
    · rcases h with ⟨q, hq, hqk⟩
      rcases List.mem_cons.mp hq with rfl | hq'
      · exact absurd hqk hp
      · exact ih ⟨q, hq', hqk⟩ _ _

/-- When `L` never assigns `k`, the start value passes through. -/
theorem lastValAux_of_not_assigned (k : String) (L : LabelMap)
    (h : ∀ p ∈ L, ¬ p.1 = k) :
    ∀ i, lastValAux k L i = i := by
  induction L with
  | nil => intro i; rfl
  | cons p rest ih =>
    intro i
    rw [lastValAux_cons, if_neg (h p (List.mem_cons_self ..))]
    exact ih (fun q hq => h q (List.mem_cons_of_mem _ hq)) i

/-- A second pass of the same assignment sequence changes nothing. -/
theorem lastValAux_idem (k : String) (L : LabelMap) (i : Option StoreLabel) :
    lastValAux k L (lastValAux k L i) = lastValAux k L i := by
  by_cases h : ∃ p ∈ L, p.1 = k
  · exact lastValAux_of_assigned k L h _ _
  · push_neg at h
    rw [lastValAux_of_not_assigned k L h, lastValAux_of_not_assigned k L h]

/-- The last label parsed under `fullName = k` across the whole reload,
in processing order. -/
def lastParsedUnder (k : String) (files : List (List ParsedLabel)) :
    Option ParsedLabel :=
  (files.flatten.filter (fun p => p.fullName = k)).getLast?

theorem lastValAux_reloadAssignments (k : String) (L : List ParsedLabel) :
    ∀ i, lastValAux k (L.map (fun p => (p.fullName, p.toStore))) i =
      match (L.filter (fun p => p.fullName = k)).getLast? with
      | some p => some p.toStore
      | none => i := by
  induction L with
  | nil => intro i; rfl
  | cons p rest ih =>
    intro i
    rw [List.map_cons, lastValAux_cons]
    by_cases hp : p.fullName = k
    · simp only [hp, if_pos rfl, List.filter_cons, decide_eq_true hp, ih]
      cases hrest : (rest.filter (fun p => p.fullName = k)).getLast? with
      | none =>
        have hnil : rest.filter (fun p => p.fullName = k) = [] :=
          List.getLast?_eq_none_iff.mp hrest
        simp [hnil]
      | some q =>
        cases hf : rest.filter (fun p => p.fullName = k) with
        | nil => rw [hf] at hrest; simp at hrest
        | cons a t =>
          rw [hf] at hrest
          simp [List.getLast?_cons_cons, hrest]
    · have hd : (decide (p.fullName = k)) = false := decide_eq_false hp
      simp only [if_neg hp, List.filter_cons, hd, ih]
      rfl

/-- The lookup that one reload leaves under `k`: the last label parsed
under `k` when the files define one, the previous store entry
otherwise. -/
theorem jsLookup_loadLabelsInWorkspace (st : LoadState)
    (files : List (List ParsedLabel)) (k : String) :
    jsLookup k (loadLabelsInWorkspace st files).salesforceLabels =
      match lastParsedUnder k files with
      | some p => some p.toStore
      | none => jsLookup k st.salesforceLabels := by
  rw [loadLabelsInWorkspace_salesforceLabels, jsLookup_assignAll]
  unfold reloadAssignments lastParsedUnder
  exact lastValAux_reloadAssignments k files.flatten _

/-! ## Key-set lemmas -/

theorem storeKeys_objSet (m : LabelMap) (k : String) (v : StoreLabel) :
    storeKeys (objSet m k v) =
      if k ∈ storeKeys m then storeKeys m else storeKeys m ++ [k] := by
  unfold objSet
  by_cases hc : m.any (fun p => p.1 = k)
  · have hm := (any_keys_iff m k).mp hc
    rw [if_pos hc, if_pos hm]
    unfold storeKeys
    rw [List.map_map]
    apply List.map_congr_left
    intro p _
    by_cases hp : p.1 = k <;> simp [hp]
  · have hm : k ∉ storeKeys m := fun h => hc ((any_keys_iff m k).mpr h)
    simp only [hc, Bool.false_eq_true, if_false, if_neg hm]
    unfold storeKeys
    rw [List.map_append]
    rfl

theorem nodup_storeKeys_objSet (m : LabelMap) (k : String) (v : StoreLabel)
    (h : (storeKeys m).Nodup) : (storeKeys (objSet m k v)).Nodup := by
  rw [storeKeys_objSet]
  by_cases hm : k ∈ storeKeys m
  · simpa [hm] using h
  · simp only [hm, if_false]
    rw [List.nodup_append]
    exact ⟨h, List.nodup_singleton k,
      fun a ha hak => hm (List.mem_singleton.mp hak ▸ ha)⟩

theorem nodup_storeKeys_assignAll (L : LabelMap) :
    ∀ m : LabelMap, (storeKeys m).Nodup → (storeKeys (assignAll m L)).Nodup := by
  induction L with
  | nil => intro m h; exact h
  | cons p rest ih =>
    intro m h
    exact ih (objSet m p.1 p.2) (nodup_storeKeys_objSet m p.1 p.2 h)

theorem nodup_storeKeys_load (st : LoadState) (files : List (List ParsedLabel))
    (h : (storeKeys st.salesforceLabels).Nodup) :
    (storeKeys (loadLabelsInWorkspace st files).salesforceLabels).Nodup := by
  rw [loadLabelsInWorkspace_salesforceLabels]
  exact nodup_storeKeys_assignAll _ _ h

/-! ## Category lemmas -/

theorem loadLabelsInWorkspace_activeLabelCategories
    (files : List (List ParsedLabel)) :
    ∀ st : LoadState,
      (loadLabelsInWorkspace st files).activeLabelCategories =
        match files.getLast? with
        | some f => jsSetDedup (fileCategories f)
        | none => st.activeLabelCategories := by
  induction files with
  | nil => intro _; rfl
  | cons f fs ih =>
    intro st
    rw [show loadLabelsInWorkspace st (f :: fs) =
        loadLabelsInWorkspace (parseLabelFile st f) fs from rfl, ih]
    cases fs with
    | nil => rfl
    | cons g gs =>
      rw [List.getLast?_cons_cons]
      cases hl : (g :: gs).getLast? with
      | none => exact absurd (List.getLast?_eq_none_iff.mp hl) (List.cons_ne_nil g gs)
      | some q => rfl

/-! ## Claim C1 -/

/-- C1, counterexample.  The claim says a reload discards the previous
store content (clear-then-repopulate), so an entry whose `fullName` is
not among the newly parsed labels is gone afterwards.  On the code, a
store holding an entry `Stale` reloaded against files that define only
`L1` still holds `Stale`: `loadLabelsInWorkspace` never clears
`salesforceLabels`. -/
theorem reload_keeps_stale_entry :
    jsLookup "Stale"
        (loadLabelsInWorkspace
          { salesforceLabels :=
              [("Stale", { fullName := .arr ["Stale"], value := .arr ["old"] })]
            activeLabelCategories := [] }
          [[{ fullName := "L1", value := "v1" }]]).salesforceLabels
      = some { fullName := .arr ["Stale"], value := .arr ["old"] }
    ∧ "Stale" ∉
        (([[{ fullName := "L1", value := "v1" }]] :
          List (List ParsedLabel)).flatten.map ParsedLabel.fullName) := by
  decide

/-- C1, amended.  A reload does not clear the store: it upserts every
parsed record in processing order over the existing content.  Hence
after a reload a `fullName` maps to the last record parsed under it
when the files define one, and otherwise keeps its previous record
(stale entries persist); and reloading twice with unchanged files
yields the same mapping as reloading once. -/
theorem reload_upserts_and_is_idempotent (st : LoadState)
    (files : List (List ParsedLabel)) (k : String) :
    (jsLookup k (loadLabelsInWorkspace st files).salesforceLabels =
      match lastParsedUnder k files with
      | some p => some p.toStore
      | none => jsLookup k st.salesforceLabels)
    ∧ jsLookup k
        (loadLabelsInWorkspace (loadLabelsInWorkspace st files) files).salesforceLabels
      = jsLookup k (loadLabelsInWorkspace st files).salesforceLabels := by
  refine ⟨jsLookup_loadLabelsInWorkspace st files k, ?_⟩
  rw [loadLabelsInWorkspace_salesforceLabels files
      (loadLabelsInWorkspace st files),
    jsLookup_assignAll,
    loadLabelsInWorkspace_salesforceLabels files st,
    jsLookup_assignAll]
  exact lastValAux_idem k (reloadAssignments files) _

/-! ## Claim C5 -/

/-- C5.  Two files each defining a label under the same `fullName`:
after the reload the store holds exactly one record under that name —
the record of the label processed last, i.e. the one from the second
file (locator order), provided no later label of that file reuses the
name. -/
theorem duplicate_fullName_last_write_wins (st : LoadState)
    (f1 pre2 post2 : List ParsedLabel) (r1 r2 : ParsedLabel) (n : String)
    (hnodup : (storeKeys st.salesforceLabels).Nodup)
    (_hr1 : r1 ∈ f1) (_hr1n : r1.fullName = n) (hr2n : r2.fullName = n)
    (hpost : ∀ p ∈ post2, ¬ p.fullName = n) :
    jsLookup n
        (loadLabelsInWorkspace st [f1, pre2 ++ r2 :: post2]).salesforceLabels
      = some r2.toStore
    ∧ (storeKeys
        (loadLabelsInWorkspace st [f1, pre2 ++ r2 :: post2]).salesforceLabels).count n
      = 1 := by
  have hlast : lastParsedUnder n [f1, pre2 ++ r2 :: post2] = some r2 := by
    unfold lastParsedUnder
    have hflat : ([f1, pre2 ++ r2 :: post2] : List (List ParsedLabel)).flatten
        = f1 ++ (pre2 ++ r2 :: post2) := by
      simp [List.flatten_cons]
    rw [hflat, List.filter_append, List.filter_append, List.filter_cons,
      decide_eq_true hr2n]
    have hp : post2.filter (fun p => p.fullName = n) = [] :=
      List.filter_eq_nil_iff.mpr (fun a ha => by simpa using hpost a ha)
    rw [hp, ← List.append_assoc]
    exact List.getLast?_concat _
  have hlook : jsLookup n
      (loadLabelsInWorkspace st [f1, pre2 ++ r2 :: post2]).salesforceLabels
      = some r2.toStore := by
    rw [jsLookup_loadLabelsInWorkspace, hlast]
  refine ⟨hlook, ?_⟩
  have hmem : n ∈ storeKeys
      (loadLabelsInWorkspace st [f1, pre2 ++ r2 :: post2]).salesforceLabels :=
    mem_storeKeys_of_jsLookup _ _ (by rw [hlook]; rfl)
  exact List.count_eq_one_of_mem (nodup_storeKeys_load st _ hnodup) hmem

/-- C5, witness: two one-label files both defining `D`, the second with
value `v2`; the store maps `D` to the second file's record, exactly
once. -/
theorem duplicate_fullName_last_write_wins_witness :
    jsLookup "D"
        (loadLabelsInWorkspace { salesforceLabels := [], activeLabelCategories := [] }
          [[{ fullName := "D", value := "v1" }],
           [{ fullName := "D", value := "v2" }]]).salesforceLabels
      = some ({ fullName := "D", value := "v2" } : ParsedLabel).toStore
    ∧ (storeKeys
        (loadLabelsInWorkspace { salesforceLabels := [], activeLabelCategories := [] }
          [[{ fullName := "D", value := "v1" }],
           [{ fullName := "D", value := "v2" }]]).salesforceLabels).count "D"
      = 1 :=
  duplicate_fullName_last_write_wins
    { salesforceLabels := [], activeLabelCategories := [] }
    [{ fullName := "D", value := "v1" }] [] []
    { fullName := "D", value := "v1" } { fullName := "D", value := "v2" } "D"
    (by decide) (by decide) (by decide) (by decide) (by decide)

/-! ## Claim C6 -/

/-- C6, counterexample.  The claim says the derived category set
aggregates across all loaded records of all files.  With a record of
category `A` in the first file and a record of category `B` in the
second, the set after the reload is exactly `B`: each file's parse
overwrites `activeLabelCategories`, so `A` — the trimmed category of a
loaded record — is missing. -/
theorem category_aggregation_drops_first_file :
    (loadLabelsInWorkspace { salesforceLabels := [], activeLabelCategories := [] }
        [[{ fullName := "A1", value := "x", categories := some "A" }],
         [{ fullName := "B1", value := "y", categories := some "B" }]]).activeLabelCategories
      = ["B"]
    ∧ "A" ∈ fileCategories
        (([[{ fullName := "A1", value := "x", categories := some "A" }],
           [{ fullName := "B1", value := "y", categories := some "B" }]] :
          List (List ParsedLabel)).flatten)
    ∧ "A" ∉
        (loadLabelsInWorkspace { salesforceLabels := [], activeLabelCategories := [] }
          [[{ fullName := "A1", value := "x", categories := some "A" }],
           [{ fullName := "B1", value := "y", categories := some "B" }]]).activeLabelCategories := by
  decide

/-- C6, amended.  After a reload the derived category set equals the
trimmed, de-duplicated category segments of the file processed last
(each file's parse overwrites the global list; with no files it is
unchanged).  In particular, when all records live in a single file the
set does aggregate that file's records: records with categories
`A, B`, `B,C` and absent give exactly `A`, `B`, `C`. -/
theorem category_set_is_last_file (st : LoadState)
    (files : List (List ParsedLabel)) :
    ((loadLabelsInWorkspace st files).activeLabelCategories =
      match files.getLast? with
      | some f => jsSetDedup (fileCategories f)
      | none => st.activeLabelCategories)
    ∧ (loadLabelsInWorkspace { salesforceLabels := [], activeLabelCategories := [] }
        [[{ fullName := "A1", value := "x", categories := some "A, B" },
          { fullName := "B1", value := "y", categories := some "B,C" },
          { fullName := "C1", value := "z" }]]).activeLabelCategories
      = ["A", "B", "C"] :=
  ⟨loadLabelsInWorkspace_activeLabelCategories files st, by decide⟩

/-! ## Claim C7 -/

/-- C7.  Upserting a label through the store's `updateLabel` leaves
every entry under a different `fullName` exactly as it was. -/
theorem upsert_preserves_other_entries (m : LabelMap) (k : String)
    (r : StoreLabel) (k' : String) (h : ¬ k' = k) :
    jsLookup k' (updateLabel m k r) = jsLookup k' m := by
  unfold updateLabel
  rw [jsLookup_objSet]
  exact if_neg (fun hh => h hh.symm)

/-- C7, witness: upserting `New` over a store holding `Old` leaves the
record of `Old` untouched. -/
theorem upsert_preserves_other_entries_witness :
    jsLookup "Old"
        (updateLabel [("Old", { fullName := .arr ["Old"], value := .arr ["ov"] })]
          "New" { fullName := .str "New", value := .str "nv" })
      = jsLookup "Old"
          [("Old", { fullName := .arr ["Old"], value := .arr ["ov"] })] :=
  upsert_preserves_other_entries
    [("Old", { fullName := .arr ["Old"], value := .arr ["ov"] })]
    "New" { fullName := .str "New", value := .str "nv" } "Old" (by decide)

/-! ## Claim C4 -/

/-- C4.  The completion loop `break`s out on the first record whose
formatting throws: with a malformed record (no `value`, so
`label.value[0]` throws) followed by a well-formed one, the provider
returns no items at all, although the well-formed record on its own
formats fine (and the skip-and-continue policy the spec requires would
return its suggestion). -/
theorem completion_loop_aborts_on_first_error :
    completionItemsLoop
        [("Bad", { fullName := .arr ["Bad"] }),
         ("Good", { fullName := .arr ["Good"], value := .arr ["gv"],
                    shortDescription := .arr ["sd"] })]
      = []
    ∧ formatCompletionItem "Good"
        { fullName := .arr ["Good"], value := .arr ["gv"],
          shortDescription := .arr ["sd"] }
      = .ok { labelName := "Good", detail := some "gv", documentation := some "sd" }
    ∧ completionItemsSkipping
        [("Bad", { fullName := .arr ["Bad"] }),
         ("Good", { fullName := .arr ["Good"], value := .arr ["gv"],
                    shortDescription := .arr ["sd"] })]
      = [{ labelName := "Good", detail := some "gv", documentation := some "sd" }] := by
  decide

/-! ## Claim C8 -/

/-- C8, counterexample.  For an unprotected label (the record the
creation workflow upserts with `protected: false`), the hover tooltip
contains no protection line at all — in particular it does not show
`No`. -/
theorem hover_unprotected_shows_no_protected_line :
    jsTruthy (CreatedLabel.toStore
        { fullName := "My_Label", value := "v", categories := "",
          language := "en_US", protFlag := false,
          shortDescription := "d" }).«protected» = false
    ∧ hoverMarkdownParts "My_Label"
        (CreatedLabel.toStore
          { fullName := "My_Label", value := "v", categories := "",
            language := "en_US", protFlag := false, shortDescription := "d" })
      = ["**Label Name:** My_Label\n\n", "**Value:** v\n\n",
         "**Short Description:** d\n\n", "**Language:** en_US\n\n"]
    ∧ "**Protected:** No\n\n" ∉ hoverMarkdownParts "My_Label"
        (CreatedLabel.toStore
          { fullName := "My_Label", value := "v", categories := "",
            language := "en_US", protFlag := false, shortDescription := "d" }) := by
  decide

/-- A string beginning with a fixed prefix of at least three characters
differs from any string whose first three characters differ. -/
theorem target_ne_line (pfx mid tail : String) {t : String}
    (h3 : 3 ≤ pfx.data.length)
    (hne : pfx.data.take 3 ≠ t.data.take 3) : ¬ t = pfx ++ mid ++ tail := by
  intro he
  exact hne (by
    rw [he, String.append_assoc, String.data_append,
      List.take_append_of_le_length h3])

/-- Membership in a conditional singleton chunk yields the condition
and the underlying membership. -/
theorem mem_ite_nil_elim {c : Prop} [Decidable c] {l : List String}
    {x : String} (h : x ∈ if c then l else []) : c ∧ x ∈ l := by
  by_cases hc : c
  · rw [if_pos hc] at h
    exact ⟨hc, h⟩
  · rw [if_neg hc] at h
    simp at h

/-- C8, amended.  The hover's protection line is rendered only when
the record's `protected` field is JS-truthy, and then it always reads
`Yes` (the ternary's `No` branch is dead under the guard): the line
`Protected: Yes` is in the tooltip exactly when the field is truthy,
and the line `Protected: No` never occurs. -/
theorem hover_protected_line_iff_truthy (labelName : String) (l : StoreLabel) :
    ("**Protected:** Yes\n\n" ∈ hoverMarkdownParts labelName l ↔
      jsTruthy l.«protected» = true)
    ∧ "**Protected:** No\n\n" ∉ hoverMarkdownParts labelName l := by
  have hchunks : ∀ x : String, x ∈ hoverMarkdownParts labelName l →
      x = "**Label Name:** " ++ labelName ++ "\n\n" ∨
      x = "**Value:** " ++ jsDisplay l.value ++ "\n\n" ∨
      (jsTruthy l.categories = true ∧
        x = "**Category:** " ++ jsDisplay l.categories ++ "\n\n") ∨
      (jsTruthy l.shortDescription = true ∧
        x = "**Short Description:** " ++ jsDisplay l.shortDescription ++ "\n\n") ∨
      (jsTruthy l.«protected» = true ∧
        x = "**Protected:** " ++
          (if jsTruthy l.«protected» then "Yes" else "No") ++ "\n\n") ∨
      (jsTruthy l.language = true ∧
        x = "**Language:** " ++ jsDisplay l.language ++ "\n\n") := by
    intro x hx
    unfold hoverMarkdownParts at hx
    rcases List.mem_append.mp hx with hx | hx
    · rcases List.mem_append.mp hx with hx | hx
      · rcases List.mem_append.mp hx with hx | hx
        · rcases List.mem_append.mp hx with hx | hx
          · rcases List.mem_cons.mp hx with hx | hx
            · exact Or.inl hx
            · rcases List.mem_cons.mp hx with hx | hx
              · exact Or.inr (Or.inl hx)
              · simp at hx
          · obtain ⟨hc, hx⟩ := mem_ite_nil_elim hx
            exact Or.inr (Or.inr (Or.inl ⟨hc, List.mem_singleton.mp hx⟩))
        · obtain ⟨hc, hx⟩ := mem_ite_nil_elim hx
          exact Or.inr (Or.inr (Or.inr (Or.inl ⟨hc, List.mem_singleton.mp hx⟩)))
      · obtain ⟨hc, hx⟩ := mem_ite_nil_elim hx
        exact Or.inr (Or.inr (Or.inr (Or.inr (Or.inl
          ⟨hc, List.mem_singleton.mp hx⟩))))
    · obtain ⟨hc, hx⟩ := mem_ite_nil_elim hx
      exact Or.inr (Or.inr (Or.inr (Or.inr (Or.inr
        ⟨hc, List.mem_singleton.mp hx⟩))))
  constructor
  · constructor
    · intro hmem
      rcases hchunks _ hmem with hx | hx | ⟨_, hx⟩ | ⟨_, hx⟩ | ⟨hp, _⟩ | ⟨_, hx⟩
      · exact absurd hx (target_ne_line "**Label Name:** " labelName "\n\n"
          (by decide) (by decide))
      · exact absurd hx (target_ne_line "**Value:** " (jsDisplay l.value) "\n\n"
          (by decide) (by decide))
      · exact absurd hx (target_ne_line "**Category:** " (jsDisplay l.categories)
          "\n\n" (by decide) (by decide))
      · exact absurd hx (target_ne_line "**Short Description:** "
          (jsDisplay l.shortDescription) "\n\n" (by decide) (by decide))
      · exact hp
      · exact absurd hx (target_ne_line "**Language:** " (jsDisplay l.language)
          "\n\n" (by decide) (by decide))
    · intro hp
      unfold hoverMarkdownParts
      refine List.mem_append.mpr (Or.inl (List.mem_append.mpr (Or.inr ?_)))
      rw [if_pos hp]
      have hyes : ("**Protected:** " ++
          (if jsTruthy l.«protected» then "Yes" else "No") ++ "\n\n")
          = "**Protected:** Yes\n\n" := by
        rw [hp]
        decide
      rw [hyes]
      exact List.mem_singleton.mpr rfl
  · intro hmem
    rcases hchunks _ hmem with hx | hx | ⟨_, hx⟩ | ⟨_, hx⟩ | ⟨hp, hx⟩ | ⟨_, hx⟩
    · exact absurd hx (target_ne_line "**Label Name:** " labelName "\n\n"
        (by decide) (by decide))
    · exact absurd hx (target_ne_line "**Value:** " (jsDisplay l.value) "\n\n"
        (by decide) (by decide))
    · exact absurd hx (target_ne_line "**Category:** " (jsDisplay l.categories)
        "\n\n" (by decide) (by decide))
    · exact absurd hx (target_ne_line "**Short Description:** "
        (jsDisplay l.shortDescription) "\n\n" (by decide) (by decide))
    · rw [hp] at hx
      exact absurd hx (by decide)
    · exact absurd hx (target_ne_line "**Language:** " (jsDisplay l.language)
        "\n\n" (by decide) (by decide))

/-! ## Claim C9 -/

/-- C9, counterexample.  Two runs refute the claim as stated.  First,
a non-empty selection whose (quote-stripped) text matches no label's
value — but does match an existing label's `fullName` — gets no
actions at all: the provider returns before the create-new action is
ever built.  Second, over a store containing a record without a
`value` (a reachable parsed shape: an entry missing `<value>`), a
non-empty selection matching no value makes the find callback throw
(`label.value[0]` on `undefined`), so the provider throws and again no
create-new action is offered. -/
theorem codeActions_return_without_create_action :
    (provideCodeActions
        [("Foo", { fullName := .arr ["Foo"], value := .arr ["bar"] })] "Foo"
      = .ok none
    ∧ ¬ "Foo" = ""
    ∧ (∀ l ∈ getAllLabels
          [("Foo", { fullName := .arr ["Foo"], value := .arr ["bar"] })],
        ¬ jsIdx0 l.value = some (stripQuotes "Foo")))
    ∧ (provideCodeActions [("Bad", { fullName := .arr ["Bad"] })] "xyz"
      = .error ()
    ∧ ¬ "xyz" = ""
    ∧ (∀ l ∈ getAllLabels [("Bad", { fullName := .arr ["Bad"] })],
        ¬ jsIdx0 l.value = some (stripQuotes "xyz"))) := by
  decide

/-- Under the no-match hypotheses the find pass completes without a
throw and finds nothing: no record's `value` is `undefined` (that
would make `jsIdx0` equal `none`), and no record's `value[0]` equals
the proposed text. -/
theorem findExistingLabel_ok_none (proposed : String) :
    ∀ L : List StoreLabel,
      (∀ l ∈ L, ¬ jsIdx0 l.value = none) →
      (∀ l ∈ L, ¬ jsIdx0 l.value = some proposed) →
      findExistingLabel proposed L = .ok none := by
  intro L
  induction L with
  | nil => intro _ _; rfl
  | cons l rest ih =>
    intro hdef hval
    have hd := hdef l (List.mem_cons_self ..)
    have hv := hval l (List.mem_cons_self ..)
    unfold findExistingLabel
    rw [if_neg ?_, if_neg ?_]
    · exact ih (fun q hq => hdef q (List.mem_cons_of_mem _ hq))
        (fun q hq => hval q (List.mem_cons_of_mem _ hq))
    · simpa using hv
    · cases hlv : l.value with
      | undefined => rw [hlv] at hd; exact absurd rfl hd
      | str s => simp [isUndefinedField]
      | arr a => simp [isUndefinedField]
      | bool b => simp [isUndefinedField]

/-- When every record's `value[0]` is defined, the filter pass never
throws. -/
theorem filterSimilarLabels_isOk (proposed : String)
    (existing : Option StoreLabel) :
    ∀ L : List StoreLabel,
      (∀ l ∈ L, ¬ jsIdx0 l.value = none) →
      ∃ ls, filterSimilarLabels proposed existing L = .ok ls := by
  intro L
  induction L with
  | nil => intro _; exact ⟨[], rfl⟩
  | cons l rest ih =>
    intro hdef
    obtain ⟨ls, hls⟩ := ih (fun q hq => hdef q (List.mem_cons_of_mem _ hq))
    have hd := hdef l (List.mem_cons_self ..)
    unfold filterSimilarLabels
    cases hidx : jsIdx0 l.value with
    | none => exact absurd hidx hd
    | some v0 =>
      rw [hls]
      simp only []
      split
      · exact ⟨_, rfl⟩
      · exact ⟨_, rfl⟩

/-- C9, amended.  For every non-empty selection whose quote-stripped
text is not the `fullName` of a stored label, whose stripped text does
not exactly match any stored record's `value[0]`, and over a store all
of whose records carry a defined `value[0]` (on a record whose
`value[0]` is not a string the find/filter callbacks throw and the
provider yields no actions, as the counterexample shows), the provider
returns an action list containing the create-new action that carries
the stripped selection as its command argument. -/
theorem codeActions_offer_create_new (store : LabelMap) (selectedText : String)
    (hne : ¬ selectedText = "")
    (hkey : jsLookup (stripQuotes selectedText) store = none)
    (hdef : ∀ l ∈ getAllLabels store, ¬ jsIdx0 l.value = none)
    (hval : ∀ l ∈ getAllLabels store,
      ¬ jsIdx0 l.value = some (stripQuotes selectedText)) :
    ∃ actions,
      provideCodeActions store selectedText = .ok (some actions)
      ∧ CodeActionModel.createNew (stripQuotes selectedText) ∈ actions := by
  unfold provideCodeActions
  simp only [if_neg hne, hkey, Option.isSome_none, Bool.false_eq_true, if_false]
  rw [findExistingLabel_ok_none (stripQuotes selectedText)
    (getAllLabels store) hdef hval]
  simp only []
  obtain ⟨ls, hls⟩ := filterSimilarLabels_isOk (stripQuotes selectedText) none
    (getAllLabels store) hdef
  rw [hls]
  simp only []
  exact ⟨_, rfl, List.mem_append.mpr (Or.inr (List.mem_singleton.mpr rfl))⟩

/-- C9, witness: selecting `baz` over a store holding one well-formed
label of value `bar` yields a create-new action pre-populated with
`baz`. -/
theorem codeActions_offer_create_new_witness :
    ∃ actions,
      provideCodeActions
          [("Foo", { fullName := .arr ["Foo"], value := .arr ["bar"] })] "baz"
        = .ok (some actions)
      ∧ CodeActionModel.createNew (stripQuotes "baz") ∈ actions :=
  codeActions_offer_create_new
    [("Foo", { fullName := .arr ["Foo"], value := .arr ["bar"] })] "baz"
    (by decide) (by decide) (by decide) (by decide)

/-! ## Claim C10 -/

/-- C10.  `copyVersion` with the setting on and differing versions:
with at least three dot-separated parts the `package.json` version
becomes the first three parts joined by dots; with fewer it throws
(and, throwing before any mutation, leaves the version unchanged).
With the setting off, or with equal versions, the object is returned
untouched. -/
theorem copyVersion_spec (st : CopierSettings) (pkg : PackageJsonVersion)
    (dir : DefaultPackageDirectory)
    (hon : st.copyVersionToPackageJson = true)
    (hne : ¬ pkg.version = dir.versionNumber) :
    ((jsSplitOn dir.versionNumber '.').length ≥ 3 →
      copyVersion (some st) pkg dir =
        .ok { version :=
          String.intercalate "." ((jsSplitOn dir.versionNumber '.').take 3) })
    ∧ ((jsSplitOn dir.versionNumber '.').length < 3 →
      ∃ msg, copyVersion (some st) pkg dir = .error msg)
    ∧ (∀ stOff : CopierSettings, stOff.copyVersionToPackageJson = false →
      copyVersion (some stOff) pkg dir = .ok pkg)
    ∧ (∀ pkgEq : PackageJsonVersion, pkgEq.version = dir.versionNumber →
      copyVersion (some st) pkgEq dir = .ok pkgEq) := by
  refine ⟨?_, ?_, ?_, ?_⟩
  · intro hlen
    simp only [copyVersion, hon, Bool.not_true, Bool.false_eq_true, if_false,
      if_neg hne, if_pos hlen]
  · intro hlen
    simp only [copyVersion, hon, Bool.not_true, Bool.false_eq_true, if_false,
      if_neg hne, if_neg (Nat.not_le_of_lt hlen)]
    exact ⟨_, rfl⟩
  · intro stOff hoff
    simp [copyVersion, hoff]
  · intro pkgEq heq
    simp [copyVersion, hon, heq]

/-- C10, witness: the test vector of the repository's own jest suite —
`versionNumber` `1.2.0.NEXT` against version `0.0.0` yields `1.2.0`. -/
theorem copyVersion_spec_witness :
    copyVersion (some { copyVersionToPackageJson := true })
        { version := "0.0.0" } { versionNumber := "1.2.0.NEXT" }
      = .ok { version :=
          String.intercalate "." ((jsSplitOn "1.2.0.NEXT" '.').take 3) }
    ∧ String.intercalate "." ((jsSplitOn "1.2.0.NEXT" '.').take 3) = "1.2.0" :=
  ⟨(copyVersion_spec { copyVersionToPackageJson := true }
      { version := "0.0.0" } { versionNumber := "1.2.0.NEXT" }
      (by decide) (by decide)).1 (by decide),
   by decide⟩

/-! ## Claim C2 -/

/-- C2, counterexample.  A run in which the namespace pick, the
category multi-select, the new-category input, the language input and
the short-description input are all dismissed still proceeds to a file
write and a store upsert: those prompts are treated as skip/default,
not as cancellation. -/
theorem create_writes_despite_dismissed_prompts :
    ((createNewLabel
        { namespaceSetting := some "ns", defaultLanguageSetting := none,
          labelFileContents :=
            ["<CustomLabels><labels><fullName>A</fullName></labels></CustomLabels>"],
          store := [], providedLabelValue := none }
        { nameInput := some "My_Label", useNamespacePick := none,
          valueInput := some "Hello", categoriesPick := none,
          categoryInput := none, protectedPick := some "No",
          languageInput := none, shortDescriptionInput := none,
          filePick := none }).wroteFile ≠ none)
    ∧ ((createNewLabel
        { namespaceSetting := some "ns", defaultLanguageSetting := none,
          labelFileContents :=
            ["<CustomLabels><labels><fullName>A</fullName></labels></CustomLabels>"],
          store := [], providedLabelValue := none }
        { nameInput := some "My_Label", useNamespacePick := none,
          valueInput := some "Hello", categoriesPick := none,
          categoryInput := none, protectedPick := some "No",
          languageInput := none, shortDescriptionInput := none,
          filePick := none }).store ≠ []) := by
  decide

/-- C2, amended.  Dismissal cancels the workflow (no file-system write,
store untouched) exactly at the guarded prompts: the label name, the
label value, the protected flag, and — when several label files make
the target-file quick pick appear — the file pick.  (Dismissing the
namespace, category, new-category, language or short-description
prompt instead continues with a default, as the counterexample
shows.) -/
theorem create_cancelled_at_guarded_prompts (env : CreateEnv)
    (r : PromptResponses)
    (h : r.nameInput = none ∨ r.valueInput = none ∨ r.protectedPick = none ∨
      (env.labelFileContents.length > 1 ∧ r.filePick = none)) :
    (createNewLabel env r).wroteFile = none
    ∧ (createNewLabel env r).store = env.store := by
  unfold createNewLabel
  rcases h with h | h | h | ⟨hlen, hpick⟩
  · repeat' split <;> try simp_all
  · repeat' split <;> try simp_all
  · repeat' split <;> try simp_all
  · have h0 : ¬ env.labelFileContents.length = 0 := by omega
    repeat' split <;> try simp_all

/-- C2, witness: dismissing the protected-flag prompt cancels the
workflow with no write and the store unchanged. -/
theorem create_cancelled_at_guarded_prompts_witness :
    (createNewLabel
        { namespaceSetting := none, defaultLanguageSetting := none,
          labelFileContents :=
            ["<CustomLabels><labels><fullName>A</fullName></labels></CustomLabels>"],
          store := [], providedLabelValue := none }
        { nameInput := some "My_Label", useNamespacePick := none,
          valueInput := some "Hello", categoriesPick := none,
          categoryInput := none, protectedPick := none,
          languageInput := none, shortDescriptionInput := none,
          filePick := none }).wroteFile = none
    ∧ (createNewLabel
        { namespaceSetting := none, defaultLanguageSetting := none,
          labelFileContents :=
            ["<CustomLabels><labels><fullName>A</fullName></labels></CustomLabels>"],
          store := [], providedLabelValue := none }
        { nameInput := some "My_Label", useNamespacePick := none,
          valueInput := some "Hello", categoriesPick := none,
          categoryInput := none, protectedPick := none,
          languageInput := none, shortDescriptionInput := none,
          filePick := none }).store
      = [] :=
  create_cancelled_at_guarded_prompts _ _ (Or.inr (Or.inr (Or.inl rfl)))

/-! ## Claim C3 -/

/-- A list is an `isPrefixOf` of itself followed by anything. -/
theorem isPrefixOf_self_append : ∀ l t : List Char, l.isPrefixOf (l ++ t) = true
  | [], _ => by simp [List.isPrefixOf]
  | c :: l, t => by
    simp only [List.cons_append, List.isPrefixOf_cons₂_self]
    exact isPrefixOf_self_append l t

/-- Replacing the leftmost occurrence when the first occurrence of the
pattern is exactly at the designated split point: the bytes before the
occurrence pass through untouched, the replacement lands at the
occurrence, and the suffix passes through untouched. -/
theorem listReplaceFirst_first_occurrence (pat rep : List Char)
    (hpat : pat ≠ []) :
    ∀ pre post : List Char,
      (∀ i < pre.length, ¬ pat.isPrefixOf ((pre ++ pat ++ post).drop i)) →
      listReplaceFirst pat rep (pre ++ pat ++ post) = pre ++ rep ++ post := by
  intro pre
  induction pre with
  | nil =>
    intro post _
    cases pat with
    | nil => exact absurd rfl hpat
    | cons c pt =>
      simp only [List.nil_append]
      rw [show ((c :: pt) ++ post : List Char) = c :: (pt ++ post) from rfl]
      unfold listReplaceFirst
      rw [if_pos ?_]
      · simp [List.drop_left]
      · rw [show (c :: (pt ++ post) : List Char) = (c :: pt) ++ post from rfl]
        exact isPrefixOf_self_append (c :: pt) post
  | cons a pre' ih =>
    intro post hocc
    have h0 : ¬ pat.isPrefixOf ((a :: pre') ++ pat ++ post) := by
      have := hocc 0 (by simp)
      simpa using this
    rw [show ((a :: pre') ++ pat ++ post : List Char)
        = a :: (pre' ++ pat ++ post) from rfl]
    unfold listReplaceFirst
    rw [if_neg (by simpa using h0)]
    rw [ih post ?_]
    · rfl
    · intro i hi
      have := hocc (i + 1) (by simpa using Nat.succ_lt_succ hi)
      simpa [List.drop_succ_cons] using this

/-- Modelled from the spec: the insertion the spec describes for the
write path — the new entry is placed immediately before the file's
closing root element (`</CustomLabels>`), all other bytes unchanged.
Stated as the replacement of the (first) closing root tag by the entry
followed by that tag; label files carry exactly one closing root
tag. -/
def insertBeforeClosingRoot (content : String) (l : CreatedLabel) : String :=
  replaceFirst content "</CustomLabels>" (renderNewLabelEntry l ++ "</CustomLabels>")

/-- C3, counterexample.  On a file with two existing entries, the
write path does not insert the new entry immediately before the
closing root element: it lands immediately after the first entry's
closing `</labels>` tag, between the two existing entries, so the
produced content differs from the spec's insertion. -/
theorem append_label_not_before_closing_root :
    appendNewLabelMarkup
        ("<CustomLabels><labels><fullName>A</fullName></labels>" ++
         "<labels><fullName>B</fullName></labels></CustomLabels>")
        { fullName := "N", value := "V", categories := "",
          language := "en_US", protFlag := false, shortDescription := "N" }
      ≠ insertBeforeClosingRoot
          ("<CustomLabels><labels><fullName>A</fullName></labels>" ++
           "<labels><fullName>B</fullName></labels></CustomLabels>")
          { fullName := "N", value := "V", categories := "",
            language := "en_US", protFlag := false, shortDescription := "N" } := by
  decide

/-- C3, amended.  The write path inserts the rendered entry
immediately after the first closing `</labels>` tag of the file (the
end of the first existing entry), with every byte before and after the
insertion point preserved. -/
theorem append_label_inserts_after_first_close (pre post : List Char)
    (l : CreatedLabel)
    (hocc : ∀ i < pre.length,
      ¬ closeLabelsTag.data.isPrefixOf
        ((pre ++ closeLabelsTag.data ++ post).drop i)) :
    appendNewLabelMarkup ⟨pre ++ closeLabelsTag.data ++ post⟩ l =
      ⟨pre ++ closeLabelsTag.data ++ (renderNewLabelEntry l).data ++ post⟩ := by
  unfold appendNewLabelMarkup replaceFirst
  have hdata : (closeLabelsTag ++ renderNewLabelEntry l).data
      = closeLabelsTag.data ++ (renderNewLabelEntry l).data :=
    String.data_append ..
  apply congrArg String.mk
  rw [show (String.mk (pre ++ closeLabelsTag.data ++ post)).data
      = pre ++ closeLabelsTag.data ++ post from rfl,
    hdata,
    listReplaceFirst_first_occurrence closeLabelsTag.data
      (closeLabelsTag.data ++ (renderNewLabelEntry l).data)
      (by decide) pre post hocc]
  simp [List.append_assoc]

/-- C3 (amended) witness: a one-entry file; the entry is inserted right
after that entry's closing tag. -/
theorem append_label_inserts_after_first_close_witness :
    appendNewLabelMarkup
        ⟨("<CustomLabels><labels><fullName>A</fullName>").data ++
          closeLabelsTag.data ++ ("</CustomLabels>").data⟩
        { fullName := "N", value := "V", categories := "",
          language := "en_US", protFlag := false, shortDescription := "N" }
      = ⟨("<CustomLabels><labels><fullName>A</fullName>").data ++
          closeLabelsTag.data ++
          (renderNewLabelEntry
            { fullName := "N", value := "V", categories := "",
              language := "en_US", protFlag := false,
              shortDescription := "N" }).data ++
          ("</CustomLabels>").data⟩ :=
  append_label_inserts_after_first_close
    ("<CustomLabels><labels><fullName>A</fullName>").data
    ("</CustomLabels>").data
    { fullName := "N", value := "V", categories := "",
      language := "en_US", protFlag := false, shortDescription := "N" }
    (by decide)

end SfExtPlus
